import Mathlib

/-
Shallow embedding of the hyper_array library (include/hyper_array/hyper_array.hpp).

Multi-dimensional machine data is modelled by lists:
  * `index<Dimensions>`            -> `List Int`  (its `_indices` array of `ptrdiff_t`)
  * `::std::array<size_type, D>`   -> `List Nat`  (dimension lengths, coefficients)
C++ signed division and remainder truncate toward zero, so they are modelled by
`Int.tdiv` and `Int.tmod`.
-/

namespace HyperArray

/-- `hyper_array::array_order`: ROW_MAJOR (C convention, last dimension varies
fastest) or COLUMN_MAJOR (Fortran convention, first dimension varies fastest). -/
inductive ArrayOrder where
  | ROW_MAJOR : ArrayOrder
  | COLUMN_MAJOR : ArrayOrder
deriving DecidableEq

/-- `internal::ct_accumulate(arr, first, length, initialValue, op)` specialized to
`op = ct_prod` (multiplication), the only operation the library applies it to
(in `computeIndexCoeffs` and `computeDataSize`).  Arguments after `arr` are
`first`, `length`, `initialValue`:
`ct_accumulate(arr, first, length, init) = op(arr[first], ct_accumulate(arr, first+1, length-1, init))`
when `length > 0` (the C++ guard `first < first + length`), else `init`. -/
def ct_accumulate (arr : List Nat) : Nat → Nat → Nat → Nat
  | _, 0, initialValue => initialValue
  | first, len + 1, initialValue =>
      arr.getD first 0 * ct_accumulate arr (first + 1) len initialValue

/-- `internal::ct_inner_product(arr_1, first_1, arr_2, first_2, length, init, op_sum, op_prod)`
specialized to `op_sum = ct_plus`, `op_prod = ct_prod` (its only instantiation,
in `flatten_index`).  Arguments after the two arrays are `first_1`, `first_2`,
`length`, `initialValue`. -/
def ct_inner_product (arr_1 : List Nat) (arr_2 : List Int) : Nat → Nat → Nat → Int → Int
  | _, _, 0, initialValue => initialValue
  | first_1, first_2, len + 1, initialValue =>
      (arr_1.getD first_1 0 : Int) * arr_2.getD first_2 0 +
        ct_inner_product arr_1 arr_2 (first_1 + 1) (first_2 + 1) len initialValue

/-- `internal::computeIndexCoeffs<size_type, Dimensions, Order>(dimensionLengths)`:
ROW_MAJOR:    `coeffs[i] = ct_accumulate(lengths, i+1, Dimensions-i-1, 1, ct_prod)`;
COLUMN_MAJOR: `coeffs[i] = ct_accumulate(lengths, 0, i, 1, ct_prod)`. -/
def computeIndexCoeffs (o : ArrayOrder) (dimensionLengths : List Nat) : List Nat :=
  match o with
  | .ROW_MAJOR =>
      (List.range dimensionLengths.length).map fun i =>
        ct_accumulate dimensionLengths (i + 1) (dimensionLengths.length - i - 1) 1
  | .COLUMN_MAJOR =>
      (List.range dimensionLengths.length).map fun i =>
        ct_accumulate dimensionLengths 0 i 1

/-- `internal::flatten_index(indexArray, coeffs)`
= `ct_inner_product(coeffs, 0, indexArray, 0, Dimensions, 0, ct_plus, ct_prod)`. -/
def flatten_index (indexArray : List Int) (coeffs : List Nat) : Int :=
  ct_inner_product coeffs indexArray 0 0 coeffs.length 0

/-- `index<D>::operator+(const index&)`: component-wise addition. -/
def index_add (a b : List Int) : List Int := List.zipWith (· + ·) a b

/-- `index<D>::operator-(const index&)`: component-wise subtraction. -/
def index_sub (a b : List Int) : List Int := List.zipWith (· - ·) a b

/-- `index<D>::operator+(const ptrdiff_t d)`: adds `d` to every component. -/
def index_add_scalar (a : List Int) (d : Int) : List Int := a.map (· + d)

/-- `index<D>::operator-(const ptrdiff_t d)`, defined in the source as `(*this) + (-d)`. -/
def index_sub_scalar (a : List Int) (d : Int) : List Int := index_add_scalar a (-d)

/-- The `std::equal(_indices, other._indices, pred)` pattern used by the
`index<D>` comparison operators: `pred` holds of every aligned component pair. -/
def index_all2 (p : Int → Int → Bool) (a b : List Int) : Bool :=
  (a.zip b).all fun x => p x.1 x.2

/-- `index<D>::operator<`: component-wise, every `a[i] < b[i]`. -/
def index_lt (a b : List Int) : Bool := index_all2 (fun x y => decide (x < y)) a b

/-- `index<D>::operator<=`: component-wise. -/
def index_le (a b : List Int) : Bool := index_all2 (fun x y => decide (x ≤ y)) a b

/-- `index<D>::operator>`: component-wise. -/
def index_gt (a b : List Int) : Bool := index_all2 (fun x y => decide (x > y)) a b

/-- `index<D>::operator>=`: component-wise. -/
def index_ge (a b : List Int) : Bool := index_all2 (fun x y => decide (x ≥ y)) a b

/-- The loop body of `internal::advance_cursor_dispatch` on the per-dimension
ranges it visits, in visiting order (COLUMN_MAJOR visits dimension 0 first).
It produces the offsets added to `_begin`:
`cursor[i] += q % range; q /= range; if (q == 0) break;`
(the remaining dimensions keep offset 0 after the break).
`%` and `/` are C++ signed (truncating) operations: `Int.tmod` / `Int.tdiv`. -/
def advance_cursor_offsets (q : Int) : List Int → List Int
  | [] => []
  | range :: rest =>
      q.tmod range ::
        (if q.tdiv range = 0 then List.replicate rest.length 0
         else advance_cursor_offsets (q.tdiv range) rest)

/-- `internal::advance_cursor_dispatch(order_tag, _cursor, distance_to_origin, _begin, _end)`:
sets `_cursor = _begin` then distributes `distance_to_origin` over the dimensions,
fastest-varying first.  COLUMN_MAJOR iterates dimensions `0 .. D-1`; ROW_MAJOR
iterates `D-1 .. 0`, which is the same loop run over the reversed ranges. -/
def advance_cursor_dispatch (o : ArrayOrder) (distance_to_origin : Int)
    (b e : List Int) : List Int :=
  match o with
  | .COLUMN_MAJOR => index_add b (advance_cursor_offsets distance_to_origin (index_sub e b))
  | .ROW_MAJOR =>
      index_add b (advance_cursor_offsets distance_to_origin (index_sub e b).reverse).reverse

/-- COLUMN_MAJOR `internal::cursor_distance_to_origin_dispatch(tag, diff, ranges)`:
`d = diff[0] + sum over i in 1..D-1 of diff[i] * accumulate(ranges[0..i-1], 1, *)`
(the `i = 0` summand below is `diff[0] * 1`). -/
def cursor_distance_to_origin_col (diff ranges : List Int) : Int :=
  ((List.range diff.length).map fun i => diff.getD i 0 * (ranges.take i).prod).sum

/-- `internal::cursor_distance_to_origin<Order>(diff, ranges)`.  The ROW_MAJOR
dispatch accumulates over the reversed arrays (`rbegin` iterators):
`d = diff[D-1] + sum of diff[D-1-i] * accumulate(first i of reversed ranges)`,
i.e. the COLUMN_MAJOR computation on `diff.reverse` and `ranges.reverse`. -/
def cursor_distance_to_origin (o : ArrayOrder) (diff ranges : List Int) : Int :=
  match o with
  | .COLUMN_MAJOR => cursor_distance_to_origin_col diff ranges
  | .ROW_MAJOR => cursor_distance_to_origin_col diff.reverse ranges.reverse

/-- Conversion of a lengths tuple (`::std::array<size_type, D>`) into an
`index<D>` (`ptrdiff_t` components), as done by `index`'s template constructor
when an iterator stores `_end(view_.lengths())`. -/
def lengths_index (L : List Nat) : List Int := L.map fun n : Nat => (n : Int)

/-- `iterator::flat_cursor() = internal::cursor_distance_to_origin<Order>(_cursor, _end)`
where `_end` is the view's lengths tuple (the iterator's cursor is view-relative). -/
def flat_cursor (o : ArrayOrder) (viewLengths : List Nat) (cursor : List Int) : Int :=
  cursor_distance_to_origin o cursor (lengths_index viewLengths)

/-- The tail of `iterator::advance_cursor` after the past-the-end adjustment:
compute `distance_to_origin = flat_cursor() + distance_`, clamp to `_end` when it
is `>= _view.size()` (the view's size is the product of its lengths), clamp to the
zero index when it is `<= 0`, otherwise redistribute via
`internal::advance_cursor_dispatch` with `_begin = hyper_index_type{0}`. -/
def iter_step (o : ArrayOrder) (viewLengths : List Nat) (cursor : List Int)
    (dist : Int) : List Int :=
  let e := lengths_index viewLengths
  let distance_to_origin := flat_cursor o viewLengths cursor + dist
  if distance_to_origin ≥ (viewLengths.prod : Int) then e
  else if distance_to_origin ≤ 0 then List.replicate viewLengths.length 0
  else advance_cursor_dispatch o distance_to_origin (List.replicate viewLengths.length 0) e

/-- `iterator::advance_cursor(distance_)`: if `_cursor >= _end` (component-wise)
then for a negative distance reset the cursor to `_end - 1` and increment the
distance, and for a non-negative distance return unchanged; then proceed with
the clamp/redistribute step `iter_step`. -/
def iter_advance_cursor (o : ArrayOrder) (viewLengths : List Nat) (cursor : List Int)
    (dist : Int) : List Int :=
  let e := lengths_index viewLengths
  if index_ge cursor e then
    if dist < 0 then iter_step o viewLengths (index_sub_scalar e 1) (dist + 1)
    else cursor
  else iter_step o viewLengths cursor dist

/-- `iterator::operator-(const this_type& other) = flat_cursor() - other.flat_cursor()`
for two iterators over the same view (same lengths). -/
def iter_sub (o : ArrayOrder) (viewLengths : List Nat) (cursor1 cursor2 : List Int) : Int :=
  flat_cursor o viewLengths cursor1 - flat_cursor o viewLengths cursor2

/-- `iterator::operator< (other) = _cursor < other._cursor` (component-wise `index` order). -/
def iter_lt (cursor1 cursor2 : List Int) : Bool := index_lt cursor1 cursor2

/-- The guard under which `iter_step` reaches the division/modulus loop of
`internal::advance_cursor_dispatch`: neither clamp branch fires. -/
abbrev iter_step_reaches_dispatch (o : ArrayOrder) (viewLengths : List Nat)
    (cursor : List Int) (dist : Int) : Prop :=
  ¬flat_cursor o viewLengths cursor + dist ≥ (viewLengths.prod : Int) ∧
    ¬flat_cursor o viewLengths cursor + dist ≤ 0

/-- The guard under which `iterator::advance_cursor(distance_)` reaches the
division/modulus loop of `internal::advance_cursor_dispatch`, mirroring the
branch structure of `iter_advance_cursor`: either the past-the-end adjustment
fires (negative distance) and the adjusted step is not clamped, or the cursor
is not past the end and the step is not clamped. -/
abbrev iter_advance_reaches_dispatch (o : ArrayOrder) (viewLengths : List Nat)
    (cursor : List Int) (dist : Int) : Prop :=
  (index_ge cursor (lengths_index viewLengths) = true ∧ dist < 0 ∧
    iter_step_reaches_dispatch o viewLengths
      (index_sub_scalar (lengths_index viewLengths) 1) (dist + 1)) ∨
  (index_ge cursor (lengths_index viewLengths) = false ∧
    iter_step_reaches_dispatch o viewLengths cursor dist)

/-- A view-relative cursor that addresses an element of the view: every
component lies in `[0, length_i)`. -/
abbrev in_view (L : List Nat) (c : List Int) : Prop :=
  c.length = L.length ∧ ∀ i, i < L.length → 0 ≤ c.getD i 0 ∧ c.getD i 0 < (L.getD i 0 : Int)

/-- The cursor produced by distributing the flat offset `k` from the zero origin
over a view's lengths (`advance_cursor_dispatch` with `_begin = 0`, `_end = lengths`). -/
def unflatten (o : ArrayOrder) (L : List Nat) (k : Nat) : List Int :=
  advance_cursor_dispatch o (k : Int) (List.replicate L.length 0) (lengths_index L)

/-- `hyper_array::view<ValueType, Dimensions, Order, IsConst>` together with the
state of the `hyper_array::array` it observes: the array's contiguous buffer
(`_dataOwner`, as a list of values) and `_lengths`, plus the view's `_begin`
origin and its local `_lengths`.  The view's `_size` is the product of its
lengths, as computed by both view constructors. -/
structure View (α : Type) where
  data : List α
  arrLengths : List Nat
  vbegin : List Int
  vlengths : List Nat

/-- The array-flat position a given absolute index addresses:
`array::operator[](idx) = _dataOwner[flatten_index(idx._indices, _coeffs)]`,
with `_coeffs = computeIndexCoeffs<Order>(_lengths)`.  The C++ result type is
the unsigned `size_type`; in-range accesses are non-negative, so `Int.toNat`
is faithful there. -/
def view_array_pos (o : ArrayOrder) (v : View α) (absoluteIdx : List Int) : Nat :=
  (flatten_index absoluteIdx (computeIndexCoeffs o v.arrLengths)).toNat

/-- `view::operator[](const hyper_index_type idx)`: reads the array element at
the absolute index `_begin + idx` (`absolute_index(relative) = _begin + relative`). -/
def view_read [Inhabited α] (o : ArrayOrder) (v : View α) (idx : List Int) : α :=
  v.data.getD (view_array_pos o v (index_add v.vbegin idx)) default

/-- Writing through `view::operator[](const hyper_index_type idx)` (the element
reference it returns is assigned to): updates the array buffer at the same
absolute position `view_read` addresses. -/
def view_write (o : ArrayOrder) (v : View α) (idx : List Int) (val : α) : View α :=
  { v with data := v.data.set (view_array_pos o v (index_add v.vbegin idx)) val }

/-- The clamp/redistribute tail of the private `view::advance_cursor(cursor, distance_)`
(it differs from the iterator's in that the cursor is absolute: the flat distance
uses `cursor - _begin`, the clamps go to `_begin + _lengths` and to `_begin`, and
the dispatch runs with `_begin`/`_begin + _lengths`). -/
def view_step (o : ArrayOrder) (v : View α) (cursor : List Int) (dist : Int) : List Int :=
  let lint := lengths_index v.vlengths
  let distance_to_origin :=
    cursor_distance_to_origin o (index_sub cursor v.vbegin) lint + dist
  if distance_to_origin ≥ (v.vlengths.prod : Int) then index_add v.vbegin lint
  else if distance_to_origin ≤ 0 then v.vbegin
  else advance_cursor_dispatch o distance_to_origin v.vbegin (index_add v.vbegin lint)

/-- The private `view::advance_cursor(cursor, distance_)`: its past-the-end test
compares `_begin + cursor` against `_lengths` component-wise, the reset goes to
`(_begin + _lengths) - 1`. -/
def view_advance_cursor (o : ArrayOrder) (v : View α) (cursor : List Int)
    (dist : Int) : List Int :=
  let lint := lengths_index v.vlengths
  if index_ge (index_add v.vbegin cursor) lint then
    if dist < 0 then
      view_step o v (index_sub_scalar (index_add v.vbegin lint) 1) (dist + 1)
    else cursor
  else view_step o v cursor dist

/-- `view::absolute_index(const flat_index_type relative)`: starts a cursor at
`_begin` and advances it by the flat distance `relative`. -/
def view_absolute_index (o : ArrayOrder) (v : View α) (relative : Nat) : List Int :=
  view_advance_cursor o v v.vbegin (relative : Int)

/-- `view::operator[](const flat_index_type idx)`: reads the array element at
`absolute_index(idx)`. -/
def view_elem_flat [Inhabited α] (o : ArrayOrder) (v : View α) (relative : Nat) : α :=
  v.data.getD (view_array_pos o v (view_absolute_index o v relative)) default

/-- `view::validateIndexRanges(idx)`: index `i` is reported out of range when
`idx[i] >= _begin[i] + _lengths[i]` or `idx[i] < 0`; the result is `true`
exactly when no index is reported (the assertion is compiled out in release
builds, so validation falls through to the boolean result). -/
def validateIndexRanges (vbegin : List Int) (vlengths : List Nat) (idx : List Int) : Bool :=
  (List.range vlengths.length).all fun i =>
    !(decide (idx.getD i 0 ≥ vbegin.getD i 0 + (vlengths.getD i 0 : Int)) ||
      decide (idx.getD i 0 < 0))

/-- `view::at(indices...)` (release build): returns `operator[](idx)` when
`validateIndexRanges(idx)` passes and the sentinel `operator[](_size)` otherwise. -/
def view_at [Inhabited α] (o : ArrayOrder) (v : View α) (idx : List Int) : α :=
  if validateIndexRanges v.vbegin v.vlengths idx then view_read o v idx
  else view_elem_flat o v v.vlengths.prod

/-- The `std::copy(other.begin(), other.end(), begin())` loop inside
`view::operator=`: while the source iterator differs from the source's
one-past-the-end iterator (iterator `==`/`!=` compare cursors), assign
`*out = *first` and advance both iterators by one.  `fuel` bounds the number of
iterations of the while loop (the embedding of a loop that is not structurally
recursive); every theorem below supplies fuel exceeding the iteration count. -/
def copy_loop [Inhabited α] (os od : ArrayOrder) (src : View α) :
    View α → List Int → List Int → Nat → List α
  | dst, _, _, 0 => dst.data
  | dst, csrc, cdst, fuel + 1 =>
      if csrc = lengths_index src.vlengths then dst.data
      else
        copy_loop os od src (view_write od dst cdst (view_read os src csrc))
          (iter_advance_cursor os src.vlengths csrc 1)
          (iter_advance_cursor od dst.vlengths cdst 1) fuel

/-- `view::operator=(const view& other)` (release build: the size-equality
assertion is compiled out): runs the `std::copy` loop from both views' begin
iterators (cursors at the zero index) and returns the destination array's
resulting buffer. -/
def view_assign [Inhabited α] (os od : ArrayOrder) (src dst : View α) : List α :=
  copy_loop os od src dst (List.replicate src.vlengths.length 0)
    (List.replicate dst.vlengths.length 0) (src.vlengths.prod + 1)

/-- Modelled from the spec: "performs an element-wise copy in iteration order" /
"copies ... the k-th element of the source's iteration order into the k-th
element of the destination's iteration order".  The k-th element of a view's
iteration order sits at the view-relative cursor `unflatten k` under the view's
own storage order. -/
def reshape_copy_spec [Inhabited α] (os od : ArrayOrder) (src dst : View α) : List α :=
  (List.range src.vlengths.prod).foldl
    (fun d k =>
      d.set (view_array_pos od dst (index_add dst.vbegin (unflatten od dst.vlengths k)))
        (view_read os src (unflatten os src.vlengths k)))
    dst.data

/-! Proof infrastructure.  `hornerSum` is a Horner-scheme reformulation of the
column-major `cursor_distance_to_origin` accumulation, convenient for induction;
it is proved equal to the source-shaped definition below. -/

/-- Horner form of the mixed-radix linear combination: for aligned lists,
`hornerSum (d :: ds) (r :: rs) = d + r * hornerSum ds rs`. -/
def hornerSum : List Int → List Int → Int
  | d :: ds, r :: rs => d + r * hornerSum ds rs
  | _, _ => 0

/-- Component `x` lies in the half-open range `[0, r)`. -/
abbrev boundedBy (x r : Int) : Prop := 0 ≤ x ∧ x < r

/-- Expansion of `ct_inner_product` as the aligned sum of products (proof
infrastructure for relating `flatten_index` to the distance computations). -/
def sumMul : List Nat → List Int → Int
  | [], _ => 0
  | _ :: _, [] => 0
  | c :: cs, d :: ds => (c : Int) * d + sumMul cs ds


lemma cursor_distance_col_nil : cursor_distance_to_origin_col [] r = 0 := by
  simp [cursor_distance_to_origin_col]

lemma cursor_distance_col_cons (x y : Int) (xs ys : List Int) :
    cursor_distance_to_origin_col (x :: xs) (y :: ys) =
      x + y * cursor_distance_to_origin_col xs ys := by
  simp only [cursor_distance_to_origin_col, List.length_cons, List.range_succ_eq_map,
    List.map_cons, List.sum_cons, List.getD_cons_zero, List.take_zero, List.prod_nil,
    mul_one, List.map_map]
  congr 1
  have hmap :
      (List.range xs.length).map
          ((fun i => (x :: xs).getD i 0 * ((y :: ys).take i).prod) ∘ Nat.succ) =
        (List.range xs.length).map fun i => y * (xs.getD i 0 * (ys.take i).prod) := by
    apply List.map_congr_left
    intro i _
    simp only [Function.comp_apply, List.getD_cons_succ, List.take_succ_cons,
      List.prod_cons]
    ring
  rw [hmap, List.sum_map_mul_left]

lemma cursor_distance_col_eq_hornerSum :
    ∀ (d r : List Int), d.length = r.length →
      cursor_distance_to_origin_col d r = hornerSum d r := by
  intro d
  induction d with
  | nil =>
    intro r _
    simp [cursor_distance_col_nil, hornerSum]
  | cons x xs ih =>
    intro r h
    cases r with
    | nil => simp at h
    | cons y ys =>
      have hlen : xs.length = ys.length := by simpa using h
      rw [cursor_distance_col_cons, ih ys hlen]
      simp [hornerSum]

lemma hornerSum_nonneg :
    ∀ {d r : List Int}, List.Forall₂ boundedBy d r → 0 ≤ hornerSum d r := by
  intro d
  induction d with
  | nil => intro r h; cases h; simp [hornerSum]
  | cons x xs ih =>
    intro r h
    cases r with
    | nil => cases h
    | cons y ys =>
      rcases List.forall₂_cons.mp h with ⟨hx, hf⟩
      have hy : 0 < y := lt_of_le_of_lt hx.1 hx.2
      have hrest : 0 ≤ hornerSum xs ys := ih hf
      have : 0 ≤ y * hornerSum xs ys := mul_nonneg (le_of_lt hy) hrest
      simp only [hornerSum]
      omega

lemma hornerSum_replicate_zero :
    ∀ (r : List Int), hornerSum (List.replicate r.length 0) r = 0 := by
  intro r
  induction r with
  | nil => simp [hornerSum]
  | cons y ys ih => simp [hornerSum, List.replicate_succ, ih]

lemma hornerSum_eq_zero :
    ∀ {d r : List Int}, List.Forall₂ boundedBy d r → hornerSum d r = 0 →
      d = List.replicate r.length 0 := by
  intro d
  induction d with
  | nil => intro r h _; cases h; simp
  | cons x xs ih =>
    intro r h h0
    cases r with
    | nil => cases h
    | cons y ys =>
      rcases List.forall₂_cons.mp h with ⟨hx, hf⟩
      have hy : 0 < y := lt_of_le_of_lt hx.1 hx.2
      have hrest : 0 ≤ hornerSum xs ys := hornerSum_nonneg hf
      have hmul : 0 ≤ y * hornerSum xs ys := mul_nonneg (le_of_lt hy) hrest
      simp only [hornerSum] at h0
      have hx0 : x = 0 := by omega
      have hmul0 : y * hornerSum xs ys = 0 := by omega
      have hs0 : hornerSum xs ys = 0 := by
        rcases mul_eq_zero.mp hmul0 with hc | hc
        · omega
        · exact hc
      simp [List.replicate_succ, hx0, ih hf hs0]

lemma hornerSum_pred_prod :
    ∀ (r : List Int), hornerSum (r.map (· - 1)) r = r.prod - 1 := by
  intro r
  induction r with
  | nil => simp [hornerSum]
  | cons y ys ih =>
    simp only [List.map_cons, hornerSum, List.prod_cons, ih]
    ring

lemma advance_cursor_offsets_length :
    ∀ (r : List Int) (q : Int), (advance_cursor_offsets q r).length = r.length := by
  intro r
  induction r with
  | nil => intro q; simp [advance_cursor_offsets]
  | cons y ys ih =>
    intro q
    by_cases h : q.tdiv y = 0 <;> simp [advance_cursor_offsets, h, ih]

lemma replicate_zero_boundedBy :
    ∀ {r : List Int}, (∀ x ∈ r, 0 < x) →
      List.Forall₂ boundedBy (List.replicate r.length 0) r := by
  intro r
  induction r with
  | nil => intro _; simp
  | cons y ys ih =>
    intro h
    simp only [List.length_cons, List.replicate_succ]
    exact List.Forall₂.cons ⟨le_refl 0, h y (by simp)⟩ (ih fun x hx => h x (by simp [hx]))

lemma advance_cursor_offsets_boundedBy :
    ∀ (r : List Int) (q : Int), 0 ≤ q → (∀ x ∈ r, 0 < x) →
      List.Forall₂ boundedBy (advance_cursor_offsets q r) r := by
  intro r
  induction r with
  | nil => intro q _ _; simp [advance_cursor_offsets]
  | cons y ys ih =>
    intro q hq hpos
    have hy : 0 < y := hpos y (by simp)
    have hmod : q.tmod y = q % y := Int.tmod_eq_emod hq (le_of_lt hy)
    have hhead : boundedBy (q.tmod y) y := by
      rw [hmod]
      exact ⟨Int.emod_nonneg q (ne_of_gt hy), Int.emod_lt_of_pos q hy⟩
    have hpos' : ∀ x ∈ ys, 0 < x := fun x hx => hpos x (by simp [hx])
    simp only [advance_cursor_offsets]
    by_cases h0 : q.tdiv y = 0
    · rw [if_pos h0]
      exact List.Forall₂.cons hhead (replicate_zero_boundedBy hpos')
    · rw [if_neg h0]
      have hq' : 0 ≤ q.tdiv y := by
        rw [Int.tdiv_eq_ediv hq (le_of_lt hy)]
        exact Int.ediv_nonneg hq (le_of_lt hy)
      exact List.Forall₂.cons hhead (ih (q.tdiv y) hq' hpos')

lemma advance_cursor_offsets_hornerSum_inv :
    ∀ {d r : List Int}, List.Forall₂ boundedBy d r →
      advance_cursor_offsets (hornerSum d r) r = d := by
  intro d
  induction d with
  | nil => intro r h; cases h; simp [advance_cursor_offsets, hornerSum]
  | cons x xs ih =>
    intro r h
    cases r with
    | nil => cases h
    | cons y ys =>
      rcases List.forall₂_cons.mp h with ⟨hx, hf⟩
      have hy : 0 < y := lt_of_le_of_lt hx.1 hx.2
      have hrest : 0 ≤ hornerSum xs ys := hornerSum_nonneg hf
      have hq : (0 : Int) ≤ x + y * hornerSum xs ys := by
        have : 0 ≤ y * hornerSum xs ys := mul_nonneg (le_of_lt hy) hrest
        omega
      have hmod : (x + y * hornerSum xs ys).tmod y = x := by
        rw [Int.tmod_eq_emod hq (le_of_lt hy), Int.add_mul_emod_self_left,
          Int.emod_eq_of_lt hx.1 hx.2]
      have hdiv : (x + y * hornerSum xs ys).tdiv y = hornerSum xs ys := by
        rw [Int.tdiv_eq_ediv hq (le_of_lt hy), Int.add_mul_ediv_left x _ (ne_of_gt hy),
          Int.ediv_eq_zero_of_lt hx.1 hx.2]
        ring
      simp only [hornerSum, advance_cursor_offsets, hmod, hdiv]
      by_cases h0 : hornerSum xs ys = 0
      · rw [if_pos h0]
        rw [hornerSum_eq_zero hf h0]
      · rw [if_neg h0, ih hf]

lemma hornerSum_advance_cursor_offsets :
    ∀ (r : List Int) (q : Int), 0 ≤ q → q < r.prod → (∀ x ∈ r, 0 < x) →
      hornerSum (advance_cursor_offsets q r) r = q := by
  intro r
  induction r with
  | nil =>
    intro q hq hlt _
    simp only [List.prod_nil] at hlt
    simp only [advance_cursor_offsets, hornerSum]
    omega
  | cons y ys ih =>
    intro q hq hlt hpos
    have hy : 0 < y := hpos y (by simp)
    have hpos' : ∀ x ∈ ys, 0 < x := fun x hx => hpos x (by simp [hx])
    have hmod : q.tmod y = q % y := Int.tmod_eq_emod hq (le_of_lt hy)
    have hdiv : q.tdiv y = q / y := Int.tdiv_eq_ediv hq (le_of_lt hy)
    simp only [advance_cursor_offsets]
    by_cases h0 : q.tdiv y = 0
    · rw [if_pos h0]
      simp only [hornerSum, hornerSum_replicate_zero, hmod]
      have hqy : q < y := by
        by_contra hge
        push_neg at hge
        have h1 : (1 : Int) ≤ q / y := (Int.le_ediv_iff_mul_le hy).mpr (by simpa using hge)
        rw [hdiv] at h0
        omega
      rw [Int.emod_eq_of_lt hq hqy]
      ring
    · rw [if_neg h0]
      simp only [hornerSum, hmod]
      have hq' : 0 ≤ q.tdiv y := by
        rw [hdiv]; exact Int.ediv_nonneg hq (le_of_lt hy)
      have hlt' : q.tdiv y < ys.prod := by
        rw [hdiv, Int.ediv_lt_iff_lt_mul hy]
        calc q < (y :: ys).prod := hlt
          _ = ys.prod * y := by rw [List.prod_cons]; ring
      rw [ih (q.tdiv y) hq' hlt' hpos', hdiv]
      exact Int.emod_add_ediv q y

lemma lengths_index_length (L : List Nat) : (lengths_index L).length = L.length := by
  simp [lengths_index]

lemma lengths_index_prod (L : List Nat) : (lengths_index L).prod = (L.prod : Int) := by
  induction L with
  | nil => rfl
  | cons l ls ih => simp [lengths_index, ih]

lemma lengths_index_pos (L : List Nat) (hpos : ∀ l ∈ L, 0 < l) :
    ∀ x ∈ lengths_index L, 0 < x := by
  intro x hx
  rcases List.mem_map.mp hx with ⟨n, hn, rfl⟩
  exact_mod_cast hpos n hn

lemma index_sub_replicate_zero :
    ∀ (xs : List Int), index_sub xs (List.replicate xs.length 0) = xs := by
  intro xs
  induction xs with
  | nil => rfl
  | cons x l ih =>
    have hstep : index_sub (x :: l) (List.replicate (x :: l).length 0) =
        (x - 0) :: index_sub l (List.replicate l.length 0) := rfl
    rw [hstep, ih, sub_zero]

lemma index_add_replicate_zero :
    ∀ (xs : List Int), index_add (List.replicate xs.length 0) xs = xs := by
  intro xs
  induction xs with
  | nil => rfl
  | cons x l ih =>
    have hstep : index_add (List.replicate (x :: l).length 0) (x :: l) =
        (0 + x) :: index_add (List.replicate l.length 0) l := rfl
    rw [hstep, ih, zero_add]

lemma advance_cursor_dispatch_col_zero_begin (L : List Nat) (q : Int) :
    advance_cursor_dispatch .COLUMN_MAJOR q (List.replicate L.length 0) (lengths_index L) =
      advance_cursor_offsets q (lengths_index L) := by
  have h1 : index_sub (lengths_index L) (List.replicate L.length 0) = lengths_index L := by
    rw [← lengths_index_length L]
    exact index_sub_replicate_zero _
  have h2 : (advance_cursor_offsets q (lengths_index L)).length = L.length := by
    rw [advance_cursor_offsets_length, lengths_index_length]
  simp only [advance_cursor_dispatch, h1]
  rw [← h2]
  exact index_add_replicate_zero _

lemma advance_cursor_dispatch_row_zero_begin (L : List Nat) (q : Int) :
    advance_cursor_dispatch .ROW_MAJOR q (List.replicate L.length 0) (lengths_index L) =
      (advance_cursor_offsets q (lengths_index L).reverse).reverse := by
  have h1 : index_sub (lengths_index L) (List.replicate L.length 0) = lengths_index L := by
    rw [← lengths_index_length L]
    exact index_sub_replicate_zero _
  have h2 : (advance_cursor_offsets q (lengths_index L).reverse).reverse.length = L.length := by
    rw [List.length_reverse, advance_cursor_offsets_length, List.length_reverse,
      lengths_index_length]
  simp only [advance_cursor_dispatch, h1]
  rw [← h2]
  exact index_add_replicate_zero _

lemma forall₂_boundedBy_of_getD :
    ∀ (c : List Int) (L : List Nat), c.length = L.length →
      (∀ i, i < L.length → 0 ≤ c.getD i 0 ∧ c.getD i 0 < (L.getD i 0 : Int)) →
      List.Forall₂ boundedBy c (lengths_index L) := by
  intro c
  induction c with
  | nil =>
    intro L h _
    cases L with
    | nil => simp [lengths_index]
    | cons l ls => simp at h
  | cons x xs ih =>
    intro L h hb
    cases L with
    | nil => simp at h
    | cons l ls =>
      rw [lengths_index, List.map_cons]
      refine List.Forall₂.cons ?_ ?_
      · simpa using hb 0 (by simp)
      · refine ih ls (by simpa using h) ?_
        intro i hi
        simpa using hb (i + 1) (by simpa using Nat.succ_lt_succ hi)

lemma in_view_of_forall₂ :
    ∀ (c : List Int) (L : List Nat),
      List.Forall₂ boundedBy c (lengths_index L) → in_view L c := by
  intro c
  induction c with
  | nil =>
    intro L h
    cases L with
    | nil => exact ⟨rfl, by intro i hi; simp at hi⟩
    | cons l ls => simp [lengths_index] at h
  | cons x xs ih =>
    intro L h
    cases L with
    | nil => simp [lengths_index] at h
    | cons l ls =>
      rw [lengths_index, List.map_cons] at h
      rcases List.forall₂_cons.mp h with ⟨hx, hf⟩
      have hiv := ih ls hf
      refine ⟨by simp [hiv.1], ?_⟩
      intro i hi
      cases i with
      | zero => simpa using hx
      | succ j =>
        have hj : j < ls.length := by simpa using hi
        simpa using hiv.2 j hj

lemma forall₂_of_in_view (L : List Nat) (c : List Int) (h : in_view L c) :
    List.Forall₂ boundedBy c (lengths_index L) :=
  forall₂_boundedBy_of_getD c L h.1 h.2

lemma dispatch_distance_roundtrip (o : ArrayOrder) (L : List Nat) (idx : List Int)
    (h : List.Forall₂ boundedBy idx (lengths_index L)) :
    advance_cursor_dispatch o (cursor_distance_to_origin o idx (lengths_index L))
      (List.replicate L.length 0) (lengths_index L) = idx := by
  have hlen : idx.length = (lengths_index L).length := h.length_eq
  cases o with
  | COLUMN_MAJOR =>
    rw [advance_cursor_dispatch_col_zero_begin]
    simp only [cursor_distance_to_origin]
    rw [cursor_distance_col_eq_hornerSum idx _ hlen]
    exact advance_cursor_offsets_hornerSum_inv h
  | ROW_MAJOR =>
    rw [advance_cursor_dispatch_row_zero_begin]
    have hrev : List.Forall₂ boundedBy idx.reverse (lengths_index L).reverse :=
      List.rel_reverse h
    have hlenr : idx.reverse.length = (lengths_index L).reverse.length := by
      simpa using hlen
    simp only [cursor_distance_to_origin]
    rw [cursor_distance_col_eq_hornerSum _ _ hlenr]
    rw [advance_cursor_offsets_hornerSum_inv hrev, List.reverse_reverse]

lemma ct_accumulate_cons :
    ∀ (len first : Nat) (x : Nat) (xs : List Nat) (init : Nat),
      ct_accumulate (x :: xs) (first + 1) len init = ct_accumulate xs first len init := by
  intro len
  induction len with
  | zero => intro first x xs init; rfl
  | succ n ih =>
    intro first x xs init
    simp only [ct_accumulate, List.getD_cons_succ]
    rw [ih (first + 1) x xs init]

lemma ct_accumulate_eq_prod :
    ∀ (arr : List Nat) (first len : Nat), first + len ≤ arr.length →
      ct_accumulate arr first len 1 = ((arr.drop first).take len).prod := by
  intro arr
  induction arr with
  | nil =>
    intro first len h
    simp only [List.length_nil, Nat.le_zero] at h
    have hlen : len = 0 := by omega
    subst hlen
    rfl
  | cons x xs ih =>
    intro first len h
    cases first with
    | zero =>
      cases len with
      | zero => rfl
      | succ n =>
        have h' : 0 + n ≤ xs.length := by
          simp only [List.length_cons] at h
          omega
        simp only [ct_accumulate, List.getD_cons_zero, List.drop_zero,
          List.take_succ_cons, List.prod_cons, Nat.zero_add]
        rw [ct_accumulate_cons, ih 0 n h']
        simp
    | succ f =>
      have h' : f + len ≤ xs.length := by
        simp only [List.length_cons] at h
        omega
      rw [ct_accumulate_cons, ih f len h', List.drop_succ_cons]

lemma computeIndexCoeffs_length (o : ArrayOrder) (L : List Nat) :
    (computeIndexCoeffs o L).length = L.length := by
  cases o <;> simp [computeIndexCoeffs]

lemma computeIndexCoeffs_row_getD (L : List Nat) (i : Nat) (hi : i < L.length) :
    (computeIndexCoeffs .ROW_MAJOR L).getD i 0 = (L.drop (i + 1)).prod := by
  simp only [computeIndexCoeffs]
  rw [List.getD_eq_getElem _ _ (by simpa using hi)]
  simp only [List.getElem_map, List.getElem_range]
  rw [ct_accumulate_eq_prod L (i + 1) (L.length - i - 1) (by omega)]
  have hdrop : (L.drop (i + 1)).length = L.length - i - 1 := by
    rw [List.length_drop]
    omega
  rw [← hdrop, List.take_length]

lemma computeIndexCoeffs_col_getD (L : List Nat) (i : Nat) (hi : i < L.length) :
    (computeIndexCoeffs .COLUMN_MAJOR L).getD i 0 = (L.take i).prod := by
  simp only [computeIndexCoeffs]
  rw [List.getD_eq_getElem _ _ (by simpa using hi)]
  simp only [List.getElem_map, List.getElem_range]
  rw [ct_accumulate_eq_prod L 0 i (by omega), List.drop_zero]

lemma ct_inner_product_cons_shift :
    ∀ (len f1 f2 : Nat) (init : Int) (c : Nat) (cs : List Nat) (d : Int) (ds : List Int),
      ct_inner_product (c :: cs) (d :: ds) (f1 + 1) (f2 + 1) len init =
        ct_inner_product cs ds f1 f2 len init := by
  intro len
  induction len with
  | zero => intros; rfl
  | succ n ih =>
    intro f1 f2 init c cs d ds
    simp only [ct_inner_product, List.getD_cons_succ]
    rw [ih (f1 + 1) (f2 + 1) init c cs d ds]

lemma flatten_index_eq_sumMul :
    ∀ (cs : List Nat) (ds : List Int), cs.length = ds.length →
      flatten_index ds cs = sumMul cs ds := by
  intro cs
  induction cs with
  | nil => intro ds _; rfl
  | cons c cs' ih =>
    intro ds h
    cases ds with
    | nil => simp at h
    | cons d ds' =>
      have h' : cs'.length = ds'.length := by simpa using h
      show ct_inner_product (c :: cs') (d :: ds') 0 0 (cs'.length + 1) 0 = _
      simp only [ct_inner_product, List.getD_cons_zero]
      rw [ct_inner_product_cons_shift]
      have hx := ih ds' h'
      rw [flatten_index] at hx
      rw [hx]
      rfl

lemma computeIndexCoeffs_row_cons (l : Nat) (ls : List Nat) :
    computeIndexCoeffs .ROW_MAJOR (l :: ls) =
      ls.prod :: computeIndexCoeffs .ROW_MAJOR ls := by
  simp only [computeIndexCoeffs, List.length_cons, List.range_succ_eq_map, List.map_cons,
    List.map_map]
  congr 1
  · rw [ct_accumulate_cons]
    have harith : ls.length + 1 - 0 - 1 = ls.length := by omega
    rw [harith, ct_accumulate_eq_prod ls 0 ls.length (by omega), List.drop_zero,
      List.take_length]
  · apply List.map_congr_left
    intro i hi
    have hi' : i < ls.length := List.mem_range.mp hi
    simp only [Function.comp_apply, Nat.succ_eq_add_one]
    have harith : ls.length + 1 - (i + 1) - 1 = ls.length - i - 1 := by omega
    rw [harith, ct_accumulate_cons]

lemma computeIndexCoeffs_col_cons (l : Nat) (ls : List Nat) :
    computeIndexCoeffs .COLUMN_MAJOR (l :: ls) =
      1 :: (computeIndexCoeffs .COLUMN_MAJOR ls).map (fun x => l * x) := by
  simp only [computeIndexCoeffs, List.length_cons, List.range_succ_eq_map, List.map_cons,
    List.map_map]
  congr 1
  apply List.map_congr_left
  intro i hi
  simp only [Function.comp_apply, Nat.succ_eq_add_one]
  show ct_accumulate (l :: ls) 0 (i + 1) 1 = l * ct_accumulate ls 0 i 1
  simp only [ct_accumulate, List.getD_cons_zero]
  rw [ct_accumulate_cons]

lemma sumMul_map_mul_left (l : Nat) :
    ∀ (cs : List Nat) (ds : List Int),
      sumMul (cs.map fun x => l * x) ds = (l : Int) * sumMul cs ds := by
  intro cs
  induction cs with
  | nil => intro ds; simp [sumMul]
  | cons c cs' ih =>
    intro ds
    cases ds with
    | nil => simp [sumMul]
    | cons d ds' =>
      simp only [List.map_cons, sumMul, ih ds']
      push_cast
      ring

lemma hornerSum_append :
    ∀ (xs ys : List Int) (x y : Int), xs.length = ys.length →
      hornerSum (xs ++ [x]) (ys ++ [y]) = hornerSum xs ys + x * ys.prod := by
  intro xs
  induction xs with
  | nil =>
    intro ys x y h
    cases ys with
    | nil => simp [hornerSum]
    | cons _ _ => simp at h
  | cons a as ih =>
    intro ys x y h
    cases ys with
    | nil => simp at h
    | cons b bs =>
      have h' : as.length = bs.length := by simpa using h
      have hstep : hornerSum ((a :: as) ++ [x]) ((b :: bs) ++ [y]) =
          a + b * hornerSum (as ++ [x]) (bs ++ [y]) := rfl
      rw [hstep, ih bs x y h', List.prod_cons]
      simp only [hornerSum]
      ring

lemma sumMul_coeffs_col :
    ∀ (ls : List Nat) (ds : List Int), ds.length = ls.length →
      sumMul (computeIndexCoeffs .COLUMN_MAJOR ls) ds = hornerSum ds (lengths_index ls) := by
  intro ls
  induction ls with
  | nil =>
    intro ds h
    cases ds with
    | nil => rfl
    | cons _ _ => simp at h
  | cons l ls' ih =>
    intro ds h
    cases ds with
    | nil => simp at h
    | cons d ds' =>
      have h' : ds'.length = ls'.length := by simpa using h
      rw [computeIndexCoeffs_col_cons]
      have hli : lengths_index (l :: ls') = (l : Int) :: lengths_index ls' := rfl
      rw [hli]
      simp only [sumMul, hornerSum]
      rw [sumMul_map_mul_left, ih ds' h']
      push_cast
      ring

lemma sumMul_coeffs_row :
    ∀ (ls : List Nat) (ds : List Int), ds.length = ls.length →
      sumMul (computeIndexCoeffs .ROW_MAJOR ls) ds =
        hornerSum ds.reverse (lengths_index ls).reverse := by
  intro ls
  induction ls with
  | nil =>
    intro ds h
    cases ds with
    | nil => rfl
    | cons _ _ => simp at h
  | cons l ls' ih =>
    intro ds h
    cases ds with
    | nil => simp at h
    | cons d ds' =>
      have h' : ds'.length = ls'.length := by simpa using h
      rw [computeIndexCoeffs_row_cons]
      simp only [sumMul]
      rw [ih ds' h']
      have hli : lengths_index (l :: ls') = (l : Int) :: lengths_index ls' := rfl
      rw [List.reverse_cons, hli, List.reverse_cons]
      rw [hornerSum_append _ _ _ _ (by simp [h', lengths_index])]
      rw [List.prod_reverse, lengths_index_prod]
      ring

lemma index_ge_self : ∀ (e : List Int), index_ge e e = true := by
  intro e
  induction e with
  | nil => rfl
  | cons x xs ih =>
    simp only [index_ge, index_all2, List.zip_cons_cons, List.all_cons, Bool.and_eq_true,
      decide_eq_true_eq]
    exact ⟨le_refl x, by simpa [index_ge, index_all2] using ih⟩

lemma index_ge_false_of_lt_head (x y : Int) (xs ys : List Int) (hxy : x < y) :
    index_ge (x :: xs) (y :: ys) = false := by
  have hd : decide (x ≥ y) = false := by simp [not_le.mpr hxy]
  simp [index_ge, index_all2, hd]

lemma index_ge_lengths_false_of_in_view (L : List Nat) (c : List Int)
    (h : in_view L c) (hne : L ≠ []) : index_ge c (lengths_index L) = false := by
  cases L with
  | nil => exact absurd rfl hne
  | cons l ls =>
    cases c with
    | nil => exact absurd h.1 (by simp)
    | cons x xs =>
      have h0 := h.2 0 (by simp)
      have hlt : x < (l : Int) := by simpa using h0.2
      have hli : lengths_index (l :: ls) = (l : Int) :: lengths_index ls := rfl
      rw [hli]
      exact index_ge_false_of_lt_head x _ xs _ hlt

lemma unflatten_in_view (o : ArrayOrder) (L : List Nat) (hpos : ∀ l ∈ L, 0 < l) (k : Nat) :
    in_view L (unflatten o L k) := by
  cases o with
  | COLUMN_MAJOR =>
    rw [unflatten, advance_cursor_dispatch_col_zero_begin]
    exact in_view_of_forall₂ _ _
      (advance_cursor_offsets_boundedBy _ _ (Int.natCast_nonneg k)
        (lengths_index_pos L hpos))
  | ROW_MAJOR =>
    rw [unflatten, advance_cursor_dispatch_row_zero_begin]
    have hb := advance_cursor_offsets_boundedBy (lengths_index L).reverse (k : Int)
      (Int.natCast_nonneg k)
      (fun x hx => lengths_index_pos L hpos x (List.mem_reverse.mp hx))
    have hb2 := List.rel_reverse hb
    rw [List.reverse_reverse] at hb2
    exact in_view_of_forall₂ _ _ hb2

lemma flat_cursor_unflatten (o : ArrayOrder) (L : List Nat) (hpos : ∀ l ∈ L, 0 < l)
    (k : Nat) (hk : k < L.prod) :
    flat_cursor o L (unflatten o L k) = (k : Int) := by
  cases o with
  | COLUMN_MAJOR =>
    rw [flat_cursor, unflatten, advance_cursor_dispatch_col_zero_begin]
    simp only [cursor_distance_to_origin]
    rw [cursor_distance_col_eq_hornerSum _ _ (advance_cursor_offsets_length _ _)]
    exact hornerSum_advance_cursor_offsets _ _ (Int.natCast_nonneg k)
      (by rw [lengths_index_prod]; exact_mod_cast hk)
      (lengths_index_pos L hpos)
  | ROW_MAJOR =>
    rw [flat_cursor, unflatten, advance_cursor_dispatch_row_zero_begin]
    simp only [cursor_distance_to_origin]
    rw [List.reverse_reverse]
    rw [cursor_distance_col_eq_hornerSum _ _ (advance_cursor_offsets_length _ _)]
    exact hornerSum_advance_cursor_offsets _ _ (Int.natCast_nonneg k)
      (by rw [List.prod_reverse, lengths_index_prod]; exact_mod_cast hk)
      (fun x hx => lengths_index_pos L hpos x (List.mem_reverse.mp hx))

lemma flat_cursor_end_sub_one (o : ArrayOrder) (L : List Nat) :
    flat_cursor o L (index_sub_scalar (lengths_index L) 1) = (L.prod : Int) - 1 := by
  have hmap : index_sub_scalar (lengths_index L) 1 = (lengths_index L).map (· - 1) := by
    rw [index_sub_scalar, index_add_scalar]
    apply List.map_congr_left
    intro x _
    ring
  cases o with
  | COLUMN_MAJOR =>
    rw [flat_cursor]
    simp only [cursor_distance_to_origin]
    rw [hmap, cursor_distance_col_eq_hornerSum _ _ (by simp)]
    rw [hornerSum_pred_prod, lengths_index_prod]
  | ROW_MAJOR =>
    rw [flat_cursor]
    simp only [cursor_distance_to_origin]
    rw [hmap, ← List.map_reverse]
    rw [cursor_distance_col_eq_hornerSum _ _ (by simp)]
    rw [hornerSum_pred_prod, List.prod_reverse, lengths_index_prod]

lemma pred_boundedBy (L : List Nat) (hpos : ∀ l ∈ L, 0 < l) :
    List.Forall₂ boundedBy (index_sub_scalar (lengths_index L) 1) (lengths_index L) := by
  induction L with
  | nil => simp [index_sub_scalar, index_add_scalar, lengths_index]
  | cons l ls ih =>
    have hl : 0 < l := hpos l (by simp)
    have hl' : (1 : Int) ≤ (l : Int) := by exact_mod_cast hl
    have hstep : index_sub_scalar (lengths_index (l :: ls)) 1 =
        ((l : Int) + (-1)) :: index_sub_scalar (lengths_index ls) 1 := rfl
    have hli : lengths_index (l :: ls) = (l : Int) :: lengths_index ls := rfl
    rw [hstep, hli]
    exact List.Forall₂.cons ⟨by omega, by omega⟩
      (ih fun x hx => hpos x (by simp [hx]))

lemma index_sub_scalar_one_of_prod_one (L : List Nat) (hpos : ∀ l ∈ L, 0 < l)
    (hp : L.prod = 1) : index_sub_scalar (lengths_index L) 1 = List.replicate L.length 0 := by
  induction L with
  | nil => rfl
  | cons l ls ih =>
    rcases mul_eq_one.mp (show l * ls.prod = 1 by simpa using hp) with ⟨hl1, hls1⟩
    subst hl1
    have hpos' : ∀ x ∈ ls, 0 < x := fun x hx => hpos x (by simp [hx])
    have ihr := ih hpos' hls1
    have hstep : index_sub_scalar (lengths_index (1 :: ls)) 1 =
        ((1 : Int) + (-1)) :: index_sub_scalar (lengths_index ls) 1 := rfl
    rw [hstep, ihr]
    norm_num
    rfl

lemma in_view_replicate_zero (L : List Nat) (hpos : ∀ l ∈ L, 0 < l) :
    in_view L (List.replicate L.length 0) := by
  refine ⟨by simp, ?_⟩
  intro i hi
  constructor
  · rw [List.getD_eq_getElem _ _ (by simpa using hi), List.getElem_replicate]
  · rw [List.getD_eq_getElem _ _ (by simpa using hi), List.getElem_replicate]
    rw [List.getD_eq_getElem _ _ hi]
    have := hpos (L[i]) (List.getElem_mem hi)
    exact_mod_cast this

lemma iter_step_valid_or_sentinel (o : ArrayOrder) (L : List Nat) (c : List Int) (d : Int)
    (hpos : ∀ l ∈ L, 0 < l) :
    in_view L (iter_step o L c d) ∨ iter_step o L c d = lengths_index L := by
  simp only [iter_step]
  by_cases h1 : flat_cursor o L c + d ≥ (L.prod : Int)
  · rw [if_pos h1]
    right
    rfl
  · rw [if_neg h1]
    by_cases h2 : flat_cursor o L c + d ≤ 0
    · rw [if_pos h2]
      left
      exact in_view_replicate_zero L hpos
    · rw [if_neg h2]
      left
      have hq : (0 : Int) ≤ flat_cursor o L c + d := by omega
      cases o with
      | COLUMN_MAJOR =>
        rw [advance_cursor_dispatch_col_zero_begin]
        exact in_view_of_forall₂ _ _
          (advance_cursor_offsets_boundedBy _ _ hq (lengths_index_pos L hpos))
      | ROW_MAJOR =>
        rw [advance_cursor_dispatch_row_zero_begin]
        have hb := advance_cursor_offsets_boundedBy (lengths_index L).reverse _ hq
          (fun x hx => lengths_index_pos L hpos x (List.mem_reverse.mp hx))
        have hb2 := List.rel_reverse hb
        rw [List.reverse_reverse] at hb2
        exact in_view_of_forall₂ _ _ hb2

lemma index_all2_iff_getD (p : Int → Int → Bool) :
    ∀ (a b : List Int), a.length = b.length →
      (index_all2 p a b = true ↔ ∀ i, i < a.length → p (a.getD i 0) (b.getD i 0) = true) := by
  intro a
  induction a with
  | nil => intro b _; simp [index_all2]
  | cons x xs ih =>
    intro b h
    cases b with
    | nil => simp at h
    | cons y ys =>
      have h' : xs.length = ys.length := by simpa using h
      simp only [index_all2, List.zip_cons_cons, List.all_cons, Bool.and_eq_true]
      rw [show ((xs.zip ys).all fun z => p z.1 z.2) = index_all2 p xs ys from rfl]
      rw [ih ys h']
      constructor
      · rintro ⟨hh, ht⟩ i hi
        cases i with
        | zero => simpa using hh
        | succ j => simpa using ht j (by simpa using hi)
      · intro hall
        refine ⟨by simpa using hall 0 (by simp), ?_⟩
        intro j hj
        simpa using hall (j + 1) (by simpa using Nat.succ_lt_succ hj)

lemma index_all2_decide_iff (p : Int → Int → Prop) [DecidableRel p] (a b : List Int)
    (h : a.length = b.length) :
    index_all2 (fun x y => decide (p x y)) a b = true ↔
      ∀ i, i < a.length → p (a.getD i 0) (b.getD i 0) := by
  rw [index_all2_iff_getD _ _ _ h]
  constructor
  · intro hall i hi
    exact of_decide_eq_true (hall i hi)
  · intro hall i hi
    exact decide_eq_true (hall i hi)

lemma validateIndexRanges_eq_true_iff (b : List Int) (L : List Nat) (idx : List Int) :
    validateIndexRanges b L idx = true ↔
      ∀ i, i < L.length →
        ¬idx.getD i 0 ≥ b.getD i 0 + (L.getD i 0 : Int) ∧ ¬idx.getD i 0 < 0 := by
  rw [validateIndexRanges, List.all_eq_true]
  constructor
  · intro h i hi
    have := h i (List.mem_range.mpr hi)
    simpa using this
  · intro h i hmem
    have := h i (List.mem_range.mp hmem)
    simpa using this

lemma validateIndexRanges_eq_false_iff (b : List Int) (L : List Nat) (idx : List Int) :
    validateIndexRanges b L idx = false ↔
      ∃ i, i < L.length ∧
        (idx.getD i 0 < 0 ∨ idx.getD i 0 ≥ b.getD i 0 + (L.getD i 0 : Int)) := by
  rw [← Bool.not_eq_true, validateIndexRanges_eq_true_iff]
  push_neg
  constructor
  · rintro ⟨i, hi, hc⟩
    exact ⟨i, hi, by omega⟩
  · rintro ⟨i, hi, hc⟩
    exact ⟨i, hi, by omega⟩

lemma advance_cursor_offsets_zero :
    ∀ (r : List Int), advance_cursor_offsets 0 r = List.replicate r.length 0 := by
  intro r
  cases r with
  | nil => rfl
  | cons y ys =>
    rw [show advance_cursor_offsets 0 (y :: ys) =
        (0 : Int).tmod y :: (if (0 : Int).tdiv y = 0 then List.replicate ys.length 0
          else advance_cursor_offsets ((0 : Int).tdiv y) ys) from rfl]
    rw [Int.zero_tmod, Int.zero_tdiv, if_pos rfl]
    rfl

lemma unflatten_zero (o : ArrayOrder) (L : List Nat) :
    unflatten o L 0 = List.replicate L.length 0 := by
  cases o with
  | COLUMN_MAJOR =>
    rw [unflatten, Nat.cast_zero, advance_cursor_dispatch_col_zero_begin,
      advance_cursor_offsets_zero, lengths_index_length]
  | ROW_MAJOR =>
    rw [unflatten, Nat.cast_zero, advance_cursor_dispatch_row_zero_begin,
      advance_cursor_offsets_zero, List.length_reverse, lengths_index_length,
      List.reverse_replicate]

lemma unflatten_ne_lengths (o : ArrayOrder) (L : List Nat) (hpos : ∀ l ∈ L, 0 < l)
    (hne : L ≠ []) (k : Nat) :
    unflatten o L k ≠ lengths_index L := by
  have hv := unflatten_in_view o L hpos k
  intro heq
  cases L with
  | nil => exact hne rfl
  | cons l ls =>
    have h0 := hv.2 0 (by simp)
    rw [heq] at h0
    have hli : lengths_index (l :: ls) = (l : Int) :: lengths_index ls := rfl
    rw [hli] at h0
    simp only [List.getD_cons_zero] at h0
    omega

lemma iter_advance_unflatten_one (o : ArrayOrder) (L : List Nat) (hpos : ∀ l ∈ L, 0 < l)
    (hne : L ≠ []) (k : Nat) (hk : k < L.prod) :
    iter_advance_cursor o L (unflatten o L k) 1 =
      if k + 1 < L.prod then unflatten o L (k + 1) else lengths_index L := by
  have hv := unflatten_in_view o L hpos k
  have hge := index_ge_lengths_false_of_in_view L _ hv hne
  have hge' : ¬index_ge (unflatten o L k) (lengths_index L) = true := by simp [hge]
  simp only [iter_advance_cursor]
  rw [if_neg hge']
  simp only [iter_step]
  rw [flat_cursor_unflatten o L hpos k hk]
  by_cases hk1 : k + 1 < L.prod
  · have hns : ¬((k : Int) + 1 ≥ (L.prod : Int)) := by
      push_neg
      exact_mod_cast hk1
    have hnz : ¬((k : Int) + 1 ≤ 0) := by omega
    rw [if_neg hns, if_neg hnz, if_pos hk1]
    have hc : (k : Int) + 1 = ((k + 1 : Nat) : Int) := by push_cast; ring
    rw [hc]
    rfl
  · have hs : (k : Int) + 1 ≥ (L.prod : Int) := by
      have hss : L.prod ≤ k + 1 := by omega
      exact_mod_cast hss
    rw [if_pos hs, if_neg hk1]

lemma copy_loop_eq_spec_fold [Inhabited α] (os od : ArrayOrder) (src dst : View α)
    (hsne : src.vlengths ≠ []) (hdne : dst.vlengths ≠ [])
    (hps : ∀ l ∈ src.vlengths, 0 < l) (hpd : ∀ l ∈ dst.vlengths, 0 < l)
    (hsize : src.vlengths.prod = dst.vlengths.prod) :
    ∀ (n j : Nat) (d : List α), j + n = src.vlengths.prod →
      copy_loop os od src { dst with data := d }
          (if j < src.vlengths.prod then unflatten os src.vlengths j
           else lengths_index src.vlengths)
          (if j < dst.vlengths.prod then unflatten od dst.vlengths j
           else lengths_index dst.vlengths)
          (n + 1) =
        (List.range' j n).foldl
          (fun acc k =>
            acc.set
              (view_array_pos od dst (index_add dst.vbegin (unflatten od dst.vlengths k)))
              (view_read os src (unflatten os src.vlengths k)))
          d := by
  have hloop : ∀ (dcur : View α) (csrc cdst : List Int) (fuel : Nat),
      copy_loop os od src dcur csrc cdst (fuel + 1) =
        if csrc = lengths_index src.vlengths then dcur.data
        else
          copy_loop os od src (view_write od dcur cdst (view_read os src csrc))
            (iter_advance_cursor os src.vlengths csrc 1)
            (iter_advance_cursor od dcur.vlengths cdst 1) fuel := by
    intro dcur csrc cdst fuel
    rfl
  intro n
  induction n with
  | zero =>
    intro j d hj
    have hns : ¬j < src.vlengths.prod := by omega
    have hnd : ¬j < dst.vlengths.prod := by omega
    rw [if_neg hns, if_neg hnd, hloop, if_pos rfl]
    rfl
  | succ m ih =>
    intro j d hj
    have hjlt : j < src.vlengths.prod := by omega
    have hjd : j < dst.vlengths.prod := by omega
    rw [if_pos hjlt, if_pos hjd, hloop,
      if_neg (unflatten_ne_lengths os src.vlengths hps hsne j)]
    have hvl : ({ dst with data := d } : View α).vlengths = dst.vlengths := rfl
    rw [hvl]
    have hwrite :
        view_write od { dst with data := d } (unflatten od dst.vlengths j)
            (view_read os src (unflatten os src.vlengths j)) =
          { dst with
            data :=
              d.set
                (view_array_pos od dst
                  (index_add dst.vbegin (unflatten od dst.vlengths j)))
                (view_read os src (unflatten os src.vlengths j)) } := rfl
    rw [hwrite]
    have hadvs := iter_advance_unflatten_one os src.vlengths hps hsne j hjlt
    have hadvd := iter_advance_unflatten_one od dst.vlengths hpd hdne j hjd
    rw [hadvs, hadvd]
    have hkey := ih (j + 1)
      (d.set
        (view_array_pos od dst (index_add dst.vbegin (unflatten od dst.vlengths j)))
        (view_read os src (unflatten os src.vlengths j)))
      (by omega)
    rw [hkey, List.range'_succ, List.foldl_cons]

/-- C1: for every lengths tuple with all extents positive, either storage order,
and every multi-dimensional index `idx` with `0 <= idx[i] < lengths[i]` in every
dimension, redistributing the flat distance-from-origin of `idx` (as computed by
`cursor_distance_to_origin` over `ranges = lengths`) from the zero origin via the
order-dependent advancement algorithm `advance_cursor_dispatch` (fastest-varying
dimension first) yields exactly `idx`: `unflatten(flatten(idx)) = idx`. -/
theorem C1_unflatten_flatten_roundtrip (o : ArrayOrder) (L : List Nat) (idx : List Int)
    (hpos : ∀ l ∈ L, 0 < l) (hlen : idx.length = L.length)
    (hb : ∀ i, i < L.length → 0 ≤ idx.getD i 0 ∧ idx.getD i 0 < (L.getD i 0 : Int)) :
    advance_cursor_dispatch o (cursor_distance_to_origin o idx (lengths_index L))
      (List.replicate L.length 0) (lengths_index L) = idx :=
  dispatch_distance_roundtrip o L idx (forall₂_boundedBy_of_getD idx L hlen hb)

/-- Witness for C1 at lengths `[2, 3]`, index `[1, 2]`, ROW_MAJOR. -/
theorem C1_unflatten_flatten_roundtrip_witness :
    ((∀ l ∈ ([2, 3] : List Nat), 0 < l) ∧
      ([1, 2] : List Int).length = ([2, 3] : List Nat).length ∧
      (∀ i, i < ([2, 3] : List Nat).length →
        0 ≤ ([1, 2] : List Int).getD i 0 ∧
          ([1, 2] : List Int).getD i 0 < (([2, 3] : List Nat).getD i 0 : Int))) ∧
    advance_cursor_dispatch .ROW_MAJOR
        (cursor_distance_to_origin .ROW_MAJOR [1, 2] (lengths_index [2, 3]))
        (List.replicate ([2, 3] : List Nat).length 0) (lengths_index [2, 3]) = [1, 2] :=
  ⟨⟨by decide, by decide, by decide⟩,
    C1_unflatten_flatten_roundtrip .ROW_MAJOR [2, 3] [1, 2] (by decide) (by decide)
      (by decide)⟩

/-- C2: for every lengths tuple of non-negative extents, `computeIndexCoeffs`
returns, under ROW_MAJOR, `coeff[i]` equal to the product of
`lengths[i+1 .. D-1]` (so `coeff[D-1] = 1`, the empty product), and under
COLUMN_MAJOR, `coeff[i]` equal to the product of `lengths[0 .. i-1]` (so
`coeff[0] = 1`); consequently for a 2-D array with lengths `(R, C)`, ROW_MAJOR
coefficients are `(C, 1)` and COLUMN_MAJOR coefficients are `(1, R)`. -/
theorem C2_computeIndexCoeffs_products (L : List Nat) (i : Nat) (hi : i < L.length)
    (R C : Nat) :
    (computeIndexCoeffs .ROW_MAJOR L).getD i 0 = (L.drop (i + 1)).prod ∧
    (computeIndexCoeffs .COLUMN_MAJOR L).getD i 0 = (L.take i).prod ∧
    computeIndexCoeffs .ROW_MAJOR [R, C] = [C, 1] ∧
    computeIndexCoeffs .COLUMN_MAJOR [R, C] = [1, R] := by
  refine ⟨computeIndexCoeffs_row_getD L i hi, computeIndexCoeffs_col_getD L i hi, ?_, ?_⟩
  · rw [computeIndexCoeffs_row_cons, computeIndexCoeffs_row_cons]
    simp [computeIndexCoeffs]
  · rw [computeIndexCoeffs_col_cons, computeIndexCoeffs_col_cons]
    simp [computeIndexCoeffs]

/-- Witness for C2 at lengths `[2, 3]`, dimension `0`, and `(R, C) = (4, 5)`. -/
theorem C2_computeIndexCoeffs_products_witness :
    (0 < ([2, 3] : List Nat).length) ∧
    ((computeIndexCoeffs .ROW_MAJOR [2, 3]).getD 0 0 = (([2, 3] : List Nat).drop 1).prod ∧
      (computeIndexCoeffs .COLUMN_MAJOR [2, 3]).getD 0 0 = (([2, 3] : List Nat).take 0).prod ∧
      computeIndexCoeffs .ROW_MAJOR [4, 5] = [5, 1] ∧
      computeIndexCoeffs .COLUMN_MAJOR [4, 5] = [1, 4]) :=
  ⟨by decide, C2_computeIndexCoeffs_products [2, 3] 0 (by decide) 4 5⟩

/-- C3: iterator saturation policy over a non-empty view: (a) if the cursor is at
or past the one-past-end sentinel (component-wise `_cursor >= _end`) and the
advancement distance is non-negative, advancing is a no-op; (b) from a
not-past-end cursor, advancing so that the resulting flat distance-from-origin
is `>=` the view's total element count parks the cursor exactly at the sentinel,
and advancing so that it is `<= 0` parks the cursor exactly at the origin;
(c) decrementing once from the sentinel yields the last valid element
(`_end - 1` component-wise). -/
theorem C3_iterator_saturation (o : ArrayOrder) (L : List Nat) (c : List Int) (d : Int)
    (hpos : ∀ l ∈ L, 0 < l) :
    (index_ge c (lengths_index L) = true → 0 ≤ d → iter_advance_cursor o L c d = c) ∧
    (index_ge c (lengths_index L) = false →
      (flat_cursor o L c + d ≥ (L.prod : Int) →
        iter_advance_cursor o L c d = lengths_index L) ∧
      (flat_cursor o L c + d ≤ 0 →
        iter_advance_cursor o L c d = List.replicate L.length 0)) ∧
    iter_advance_cursor o L (lengths_index L) (-1) =
      index_sub_scalar (lengths_index L) 1 := by
  have hprod : 0 < L.prod := List.prod_pos hpos
  refine ⟨?_, ?_, ?_⟩
  · intro hge hd
    have hnd : ¬d < 0 := not_lt.mpr hd
    simp only [iter_advance_cursor]
    rw [if_pos hge, if_neg hnd]
  · intro hge
    have hge' : ¬index_ge c (lengths_index L) = true := by simp [hge]
    constructor
    · intro hcl
      simp only [iter_advance_cursor]
      rw [if_neg hge']
      simp only [iter_step]
      rw [if_pos hcl]
    · intro hcl
      have hs : (0 : Int) < (L.prod : Int) := by exact_mod_cast hprod
      have hnot : ¬flat_cursor o L c + d ≥ (L.prod : Int) := by omega
      simp only [iter_advance_cursor]
      rw [if_neg hge']
      simp only [iter_step]
      rw [if_neg hnot, if_pos hcl]
  · have hge := index_ge_self (lengths_index L)
    have hd : (-1 : Int) < 0 := by norm_num
    simp only [iter_advance_cursor]
    rw [if_pos hge, if_pos hd]
    simp only [iter_step]
    rw [flat_cursor_end_sub_one]
    have harith : (L.prod : Int) - 1 + (-1 + 1) = (L.prod : Int) - 1 := by ring
    rw [harith]
    by_cases h1 : L.prod = 1
    · have hns : ¬((L.prod : Int) - 1 ≥ (L.prod : Int)) := by omega
      have h1' : (L.prod : Int) = 1 := by exact_mod_cast h1
      have hz : (L.prod : Int) - 1 ≤ 0 := by omega
      rw [if_neg hns, if_pos hz]
      exact (index_sub_scalar_one_of_prod_one L hpos h1).symm
    · have h2 : 2 ≤ L.prod := by omega
      have h2' : (2 : Int) ≤ (L.prod : Int) := by exact_mod_cast h2
      have hns : ¬((L.prod : Int) - 1 ≥ (L.prod : Int)) := by omega
      have hnz : ¬((L.prod : Int) - 1 ≤ 0) := by omega
      rw [if_neg hns, if_neg hnz]
      have hflat : (L.prod : Int) - 1 =
          cursor_distance_to_origin o (index_sub_scalar (lengths_index L) 1)
            (lengths_index L) := (flat_cursor_end_sub_one o L).symm
      rw [hflat]
      exact dispatch_distance_roundtrip o L _ (pred_boundedBy L hpos)

/-- Witness for C3 at ROW_MAJOR, lengths `[2, 3]`, cursor `[0, 1]`, distance `2`. -/
theorem C3_iterator_saturation_witness :
    (∀ l ∈ ([2, 3] : List Nat), 0 < l) ∧
    ((index_ge [0, 1] (lengths_index [2, 3]) = true → (0 : Int) ≤ 2 →
        iter_advance_cursor .ROW_MAJOR [2, 3] [0, 1] 2 = [0, 1]) ∧
      (index_ge [0, 1] (lengths_index [2, 3]) = false →
        (flat_cursor .ROW_MAJOR [2, 3] [0, 1] + 2 ≥ (([2, 3] : List Nat).prod : Int) →
          iter_advance_cursor .ROW_MAJOR [2, 3] [0, 1] 2 = lengths_index [2, 3]) ∧
        (flat_cursor .ROW_MAJOR [2, 3] [0, 1] + 2 ≤ 0 →
          iter_advance_cursor .ROW_MAJOR [2, 3] [0, 1] 2 =
            List.replicate ([2, 3] : List Nat).length 0)) ∧
      iter_advance_cursor .ROW_MAJOR [2, 3] (lengths_index [2, 3]) (-1) =
        index_sub_scalar (lengths_index [2, 3]) 1) :=
  ⟨by decide, C3_iterator_saturation .ROW_MAJOR [2, 3] [0, 1] 2 (by decide)⟩

/-- C4 counterexample: the claim says `it1 < it2` holds exactly when `it1`'s flat
distance-from-origin is smaller; over a ROW_MAJOR 2x2 view the cursors `[0, 1]`
and `[1, 0]` have flat positions `1 < 2`, yet `operator<` (component-wise cursor
comparison) is false. -/
theorem C4_ordering_counterexample :
    flat_cursor .ROW_MAJOR [2, 2] [0, 1] < flat_cursor .ROW_MAJOR [2, 2] [1, 0] ∧
      iter_lt [0, 1] [1, 0] = false := by
  decide

/-- C4 amended: iterator subtraction is determined by the flat linear position
derived on demand from each iterator's cursor (`operator- = flat_cursor() -
other.flat_cursor()`), but the ordering comparisons compare the
multi-dimensional cursors component-wise: `it1 < it2` holds exactly when every
component of `it1`'s cursor is strictly less than the corresponding component
of `it2`'s cursor. -/
theorem C4_subtraction_flat_ordering_componentwise (o : ArrayOrder) (L : List Nat)
    (c1 c2 : List Int) (h : c1.length = c2.length) :
    iter_sub o L c1 c2 = flat_cursor o L c1 - flat_cursor o L c2 ∧
      (iter_lt c1 c2 = true ↔ ∀ i, i < c1.length → c1.getD i 0 < c2.getD i 0) :=
  ⟨rfl, index_all2_decide_iff (· < ·) c1 c2 h⟩

/-- Witness for C4 at ROW_MAJOR, lengths `[2, 2]`, cursors `[0, 1]` and `[1, 0]`. -/
theorem C4_subtraction_flat_ordering_componentwise_witness :
    (([0, 1] : List Int).length = ([1, 0] : List Int).length) ∧
    (iter_sub .ROW_MAJOR [2, 2] [0, 1] [1, 0] =
        flat_cursor .ROW_MAJOR [2, 2] [0, 1] - flat_cursor .ROW_MAJOR [2, 2] [1, 0] ∧
      (iter_lt [0, 1] [1, 0] = true ↔
        ∀ i, i < ([0, 1] : List Int).length →
          ([0, 1] : List Int).getD i 0 < ([1, 0] : List Int).getD i 0)) :=
  ⟨by decide,
    C4_subtraction_flat_ordering_componentwise .ROW_MAJOR [2, 2] [0, 1] [1, 0] (by decide)⟩

/-- C5 counterexample: the claim says an out-of-range condition is detected
exactly when some `idx[i]` falls outside `[begin_i, begin_i + length_i)`.  For a
view with `_begin = [1]`, `_lengths = [2]`, the index `[0]` lies outside the
claimed half-open range `[1, 3)` (its component is below `begin_0 = 1`), yet
`validateIndexRanges` does not detect it (it only checks `idx[i] < 0`). -/
theorem C5_at_detection_counterexample :
    validateIndexRanges [1] [2] [0] = true ∧
      (([0] : List Int).getD 0 0 < ([1] : List Int).getD 0 0 ∨
        ([0] : List Int).getD 0 0 ≥
          ([1] : List Int).getD 0 0 + (([2] : List Nat).getD 0 0 : Int)) := by
  decide

/-- C5 amended: `view::at` detects an out-of-range condition exactly when some
component satisfies `idx[i] < 0` or `idx[i] >= begin_i + length_i` (the lower
bound compared against is `0`, not `begin_i`); on detected failure `at()` does
not raise but returns the sentinel element `operator[](size)`, one past the
valid view-relative flat range; on success it returns `operator[](idx)`. -/
theorem C5_view_at_detection_and_sentinel [Inhabited α] (o : ArrayOrder) (v : View α)
    (idx : List Int) :
    (validateIndexRanges v.vbegin v.vlengths idx = false ↔
      ∃ i, i < v.vlengths.length ∧
        (idx.getD i 0 < 0 ∨
          idx.getD i 0 ≥ v.vbegin.getD i 0 + (v.vlengths.getD i 0 : Int))) ∧
    (validateIndexRanges v.vbegin v.vlengths idx = false →
      view_at o v idx = view_elem_flat o v v.vlengths.prod) ∧
    (validateIndexRanges v.vbegin v.vlengths idx = true →
      view_at o v idx = view_read o v idx) := by
  refine ⟨validateIndexRanges_eq_false_iff _ _ _, ?_, ?_⟩
  · intro hf
    rw [view_at, if_neg (by simp [hf])]
  · intro ht
    rw [view_at, if_pos ht]

/-- Witness for C5 at a ROW_MAJOR view with `_begin = [1]`, `_lengths = [2]`
over a length-4 buffer, and index `[0]`. -/
theorem C5_view_at_detection_and_sentinel_witness :
    (validateIndexRanges (⟨[10, 20, 30, 40], [4], [1], [2]⟩ : View Int).vbegin
          (⟨[10, 20, 30, 40], [4], [1], [2]⟩ : View Int).vlengths [0] = false ↔
      ∃ i, i < (⟨[10, 20, 30, 40], [4], [1], [2]⟩ : View Int).vlengths.length ∧
        (([0] : List Int).getD i 0 < 0 ∨
          ([0] : List Int).getD i 0 ≥
            (⟨[10, 20, 30, 40], [4], [1], [2]⟩ : View Int).vbegin.getD i 0 +
              ((⟨[10, 20, 30, 40], [4], [1], [2]⟩ : View Int).vlengths.getD i 0 : Int))) ∧
    (validateIndexRanges (⟨[10, 20, 30, 40], [4], [1], [2]⟩ : View Int).vbegin
          (⟨[10, 20, 30, 40], [4], [1], [2]⟩ : View Int).vlengths [0] = false →
      view_at .ROW_MAJOR (⟨[10, 20, 30, 40], [4], [1], [2]⟩ : View Int) [0] =
        view_elem_flat .ROW_MAJOR (⟨[10, 20, 30, 40], [4], [1], [2]⟩ : View Int)
          (⟨[10, 20, 30, 40], [4], [1], [2]⟩ : View Int).vlengths.prod) ∧
    (validateIndexRanges (⟨[10, 20, 30, 40], [4], [1], [2]⟩ : View Int).vbegin
          (⟨[10, 20, 30, 40], [4], [1], [2]⟩ : View Int).vlengths [0] = true →
      view_at .ROW_MAJOR (⟨[10, 20, 30, 40], [4], [1], [2]⟩ : View Int) [0] =
        view_read .ROW_MAJOR (⟨[10, 20, 30, 40], [4], [1], [2]⟩ : View Int) [0]) :=
  C5_view_at_detection_and_sentinel .ROW_MAJOR (⟨[10, 20, 30, 40], [4], [1], [2]⟩ : View Int)
    [0]

/-- C6 counterexample: the claim quantifies over every pair of views of equal
total size.  Two views with lengths `(0, 5)` (total size 0) over 1x1 arrays have
equal sizes, and the claimed element-wise copy would copy nothing, yet
`view::operator=`'s `std::copy` loop copies one spurious element (begin and end
cursors differ even though the view is empty): the destination buffer changes
from `[7]` to `[42]`. -/
theorem C6_zero_size_counterexample :
    (⟨[42], [1, 1], [0, 0], [0, 5]⟩ : View Int).vlengths.prod =
        (⟨[7], [1, 1], [0, 0], [0, 5]⟩ : View Int).vlengths.prod ∧
      view_assign .ROW_MAJOR .ROW_MAJOR (⟨[42], [1, 1], [0, 0], [0, 5]⟩ : View Int)
          (⟨[7], [1, 1], [0, 0], [0, 5]⟩ : View Int) ≠
        reshape_copy_spec .ROW_MAJOR .ROW_MAJOR (⟨[42], [1, 1], [0, 0], [0, 5]⟩ : View Int)
          (⟨[7], [1, 1], [0, 0], [0, 5]⟩ : View Int) := by
  decide

/-- C6 amended: for every pair of views of equal total size all of whose extents
are positive (in particular both non-degenerate), view-to-view assignment --
which checks only total-size equality -- copies elements one by one, the k-th
element of the source's iteration order into the k-th element of the
destination's iteration order, for arbitrary shapes and storage orders. -/
theorem C6_view_assign_reshape_copy [Inhabited α] (os od : ArrayOrder)
    (src dst : View α) (hsne : src.vlengths ≠ []) (hdne : dst.vlengths ≠ [])
    (hps : ∀ l ∈ src.vlengths, 0 < l) (hpd : ∀ l ∈ dst.vlengths, 0 < l)
    (hsize : src.vlengths.prod = dst.vlengths.prod) :
    view_assign os od src dst = reshape_copy_spec os od src dst := by
  have h0s : 0 < src.vlengths.prod := List.prod_pos hps
  have h0d : 0 < dst.vlengths.prod := List.prod_pos hpd
  have key := copy_loop_eq_spec_fold os od src dst hsne hdne hps hpd hsize
    src.vlengths.prod 0 dst.data (by omega)
  rw [if_pos h0s, if_pos h0d, unflatten_zero, unflatten_zero] at key
  rw [view_assign, reshape_copy_spec, List.range_eq_range']
  exact key

/-- Witness for C6: two 1-D views of length 2, source buffer `[1, 2]` into
destination buffer `[0, 0]`. -/
theorem C6_view_assign_reshape_copy_witness :
    ((⟨[1, 2], [2], [0], [2]⟩ : View Int).vlengths ≠ [] ∧
      (⟨[0, 0], [2], [0], [2]⟩ : View Int).vlengths ≠ [] ∧
      (∀ l ∈ (⟨[1, 2], [2], [0], [2]⟩ : View Int).vlengths, 0 < l) ∧
      (∀ l ∈ (⟨[0, 0], [2], [0], [2]⟩ : View Int).vlengths, 0 < l) ∧
      (⟨[1, 2], [2], [0], [2]⟩ : View Int).vlengths.prod =
        (⟨[0, 0], [2], [0], [2]⟩ : View Int).vlengths.prod) ∧
    view_assign .ROW_MAJOR .ROW_MAJOR (⟨[1, 2], [2], [0], [2]⟩ : View Int)
        (⟨[0, 0], [2], [0], [2]⟩ : View Int) =
      reshape_copy_spec .ROW_MAJOR .ROW_MAJOR (⟨[1, 2], [2], [0], [2]⟩ : View Int)
        (⟨[0, 0], [2], [0], [2]⟩ : View Int) :=
  ⟨⟨by decide, by decide, by decide, by decide, by decide⟩,
    C6_view_assign_reshape_copy .ROW_MAJOR .ROW_MAJOR _ _ (by decide) (by decide)
      (by decide) (by decide) (by decide)⟩

/-- C7: whenever `iterator::advance_cursor` reaches the order-dependent
redistribution step (`advance_cursor_dispatch`), every per-dimension range
`end[i] - begin[i]` used as modulus/divisor is strictly positive -- if any
dimension had zero length, the total size would be zero and the clamp branches
would return first -- so the division-by-zero branch is unreachable.  The second
conjunct states positivity of the exact divisor list `_end - _begin` handed to
the dispatch (`_begin` is the zero index). -/
theorem C7_division_safety (o : ArrayOrder) (L : List Nat) (c : List Int) (d : Int)
    (h : iter_advance_reaches_dispatch o L c d) :
    (∀ l ∈ L, 0 < l) ∧
      ∀ x ∈ index_sub (lengths_index L) (List.replicate L.length 0), 0 < x := by
  have hstep : ∃ c' d', iter_step_reaches_dispatch o L c' d' := by
    rcases h with ⟨_, _, hs⟩ | ⟨_, hs⟩
    · exact ⟨_, _, hs⟩
    · exact ⟨_, _, hs⟩
  rcases hstep with ⟨c', d', hs⟩
  have h1 : ¬flat_cursor o L c' + d' ≥ (L.prod : Int) := hs.1
  have h2 : ¬flat_cursor o L c' + d' ≤ 0 := hs.2
  have hsz : (0 : Int) < (L.prod : Int) := by omega
  have hszn : 0 < L.prod := by exact_mod_cast hsz
  have hpos : ∀ l ∈ L, 0 < l := by
    intro l hl
    rcases Nat.eq_zero_or_pos l with h0 | hp
    · exfalso
      have hzero : L.prod = 0 := List.prod_eq_zero (h0 ▸ hl)
      omega
    · exact hp
  refine ⟨hpos, ?_⟩
  intro x hx
  have heq : index_sub (lengths_index L) (List.replicate L.length 0) = lengths_index L := by
    rw [← lengths_index_length L]
    exact index_sub_replicate_zero _
  rw [heq] at hx
  exact lengths_index_pos L hpos x hx

/-- Witness for C7 at ROW_MAJOR, lengths `[2, 3]`, cursor `[0, 1]`, distance `2`
(the dispatch is reached: the flat target 3 lies strictly between 0 and 6). -/
theorem C7_division_safety_witness :
    iter_advance_reaches_dispatch .ROW_MAJOR [2, 3] [0, 1] 2 ∧
    ((∀ l ∈ ([2, 3] : List Nat), 0 < l) ∧
      ∀ x ∈ index_sub (lengths_index [2, 3])
          (List.replicate ([2, 3] : List Nat).length 0), 0 < x) :=
  ⟨by decide, C7_division_safety .ROW_MAJOR [2, 3] [0, 1] 2 (by decide)⟩

/-- C8: `index<D>` comparison is component-wise, not lexicographic: `a < b`
holds exactly when every component of `a` is strictly less than the
corresponding component of `b`, and likewise for `<=`, `>`, `>=`; consequently
for the pair `(-2, 3, 4, -1)` and `(2, -3, -4, 1)` all of `==`, `<`, `<=`, `>`,
`>=` are simultaneously false. -/
theorem C8_componentwise_comparison (a b : List Int) (h : a.length = b.length) :
    (index_lt a b = true ↔ ∀ i, i < a.length → a.getD i 0 < b.getD i 0) ∧
    (index_le a b = true ↔ ∀ i, i < a.length → a.getD i 0 ≤ b.getD i 0) ∧
    (index_gt a b = true ↔ ∀ i, i < a.length → a.getD i 0 > b.getD i 0) ∧
    (index_ge a b = true ↔ ∀ i, i < a.length → a.getD i 0 ≥ b.getD i 0) ∧
    (([-2, 3, 4, -1] : List Int) ≠ [2, -3, -4, 1] ∧
      index_lt [-2, 3, 4, -1] [2, -3, -4, 1] = false ∧
      index_le [-2, 3, 4, -1] [2, -3, -4, 1] = false ∧
      index_gt [-2, 3, 4, -1] [2, -3, -4, 1] = false ∧
      index_ge [-2, 3, 4, -1] [2, -3, -4, 1] = false) :=
  ⟨index_all2_decide_iff (· < ·) a b h, index_all2_decide_iff (· ≤ ·) a b h,
    index_all2_decide_iff (· > ·) a b h, index_all2_decide_iff (· ≥ ·) a b h,
    by decide⟩

/-- Witness for C8 at `a = [1, 2, 3, -4]`, `b = [7, 3, 4, 5]`. -/
theorem C8_componentwise_comparison_witness :
    (([1, 2, 3, -4] : List Int).length = ([7, 3, 4, 5] : List Int).length) ∧
    ((index_lt [1, 2, 3, -4] [7, 3, 4, 5] = true ↔
        ∀ i, i < ([1, 2, 3, -4] : List Int).length →
          ([1, 2, 3, -4] : List Int).getD i 0 < ([7, 3, 4, 5] : List Int).getD i 0) ∧
      (index_le [1, 2, 3, -4] [7, 3, 4, 5] = true ↔
        ∀ i, i < ([1, 2, 3, -4] : List Int).length →
          ([1, 2, 3, -4] : List Int).getD i 0 ≤ ([7, 3, 4, 5] : List Int).getD i 0) ∧
      (index_gt [1, 2, 3, -4] [7, 3, 4, 5] = true ↔
        ∀ i, i < ([1, 2, 3, -4] : List Int).length →
          ([1, 2, 3, -4] : List Int).getD i 0 > ([7, 3, 4, 5] : List Int).getD i 0) ∧
      (index_ge [1, 2, 3, -4] [7, 3, 4, 5] = true ↔
        ∀ i, i < ([1, 2, 3, -4] : List Int).length →
          ([1, 2, 3, -4] : List Int).getD i 0 ≥ ([7, 3, 4, 5] : List Int).getD i 0) ∧
      (([-2, 3, 4, -1] : List Int) ≠ [2, -3, -4, 1] ∧
        index_lt [-2, 3, 4, -1] [2, -3, -4, 1] = false ∧
        index_le [-2, 3, 4, -1] [2, -3, -4, 1] = false ∧
        index_gt [-2, 3, 4, -1] [2, -3, -4, 1] = false ∧
        index_ge [-2, 3, 4, -1] [2, -3, -4, 1] = false)) :=
  ⟨by decide, C8_componentwise_comparison [1, 2, 3, -4] [7, 3, 4, 5] (by decide)⟩

/-- C9: for every lengths tuple with all extents positive, either storage order,
and every index tuple of matching dimension, the on-demand flat position
`cursor_distance_to_origin(idx, lengths)` equals
`flatten_index(idx, computeIndexCoeffs(lengths))` -- the two independently
implemented linear maps agree. -/
theorem C9_distance_equals_flatten (o : ArrayOrder) (L : List Nat) (idx : List Int)
    (hpos : ∀ l ∈ L, 0 < l) (hlen : idx.length = L.length) :
    cursor_distance_to_origin o idx (lengths_index L) =
      flatten_index idx (computeIndexCoeffs o L) := by
  have hclen : (computeIndexCoeffs o L).length = idx.length := by
    rw [computeIndexCoeffs_length, hlen]
  rw [flatten_index_eq_sumMul _ _ hclen]
  cases o with
  | COLUMN_MAJOR =>
    simp only [cursor_distance_to_origin]
    rw [cursor_distance_col_eq_hornerSum idx _ (by rw [lengths_index_length, hlen])]
    exact (sumMul_coeffs_col L idx hlen).symm
  | ROW_MAJOR =>
    simp only [cursor_distance_to_origin]
    rw [cursor_distance_col_eq_hornerSum _ _ (by simp [lengths_index_length, hlen])]
    exact (sumMul_coeffs_row L idx hlen).symm

/-- Witness for C9 at COLUMN_MAJOR, lengths `[2, 3]`, index `[1, 2]`. -/
theorem C9_distance_equals_flatten_witness :
    ((∀ l ∈ ([2, 3] : List Nat), 0 < l) ∧
      ([1, 2] : List Int).length = ([2, 3] : List Nat).length) ∧
    cursor_distance_to_origin .COLUMN_MAJOR [1, 2] (lengths_index [2, 3]) =
      flatten_index [1, 2] (computeIndexCoeffs .COLUMN_MAJOR [2, 3]) :=
  ⟨⟨by decide, by decide⟩,
    C9_distance_equals_flatten .COLUMN_MAJOR [2, 3] [1, 2] (by decide) (by decide)⟩

/-- C10: cursor validity invariant: for every iterator over a view all of whose
lengths are positive, if the cursor is a valid in-view position
(`0 <= cursor[i] < lengths[i]` in every dimension) or exactly the one-past-end
sentinel (`cursor = lengths`), then after `advance_cursor` with any signed
distance (the single primitive behind `++`, `--`, `+=`, `-=`, `+`, `-`) the
cursor is again valid or exactly the sentinel. -/
theorem C10_cursor_validity_invariant (o : ArrayOrder) (L : List Nat) (c : List Int)
    (d : Int) (hpos : ∀ l ∈ L, 0 < l)
    (h : in_view L c ∨ c = lengths_index L) :
    in_view L (iter_advance_cursor o L c d) ∨
      iter_advance_cursor o L c d = lengths_index L := by
  by_cases hge : index_ge c (lengths_index L) = true
  · simp only [iter_advance_cursor]
    rw [if_pos hge]
    by_cases hd : d < 0
    · rw [if_pos hd]
      exact iter_step_valid_or_sentinel o L _ _ hpos
    · rw [if_neg hd]
      exact h
  · simp only [iter_advance_cursor]
    rw [if_neg hge]
    exact iter_step_valid_or_sentinel o L _ _ hpos

/-- Witness for C10 at ROW_MAJOR, lengths `[2, 3]`, cursor `[1, 2]`, distance `5`. -/
theorem C10_cursor_validity_invariant_witness :
    ((∀ l ∈ ([2, 3] : List Nat), 0 < l) ∧
      (in_view [2, 3] [1, 2] ∨ ([1, 2] : List Int) = lengths_index [2, 3])) ∧
    (in_view [2, 3] (iter_advance_cursor .ROW_MAJOR [2, 3] [1, 2] 5) ∨
      iter_advance_cursor .ROW_MAJOR [2, 3] [1, 2] 5 = lengths_index [2, 3]) :=
  ⟨⟨by decide, by decide⟩,
    C10_cursor_validity_invariant .ROW_MAJOR [2, 3] [1, 2] 5 (by decide) (by decide)⟩

end HyperArray
